import Mathlib

/-!
Formal model of the Blokus web app's game rule engine
(`src/server/index.js`), with the client-side preview helpers from
`src/client/src/App.jsx` where a claim compares the two.

State is event-sourced: a game is a list of moves, and occupancy,
status and scores are pure projections of that list, exactly as in
`getGameState`.  Machine integers are modelled as `Int`; JavaScript's
`%` operator (truncated remainder) is `Int.tmod`.
-/

namespace Blokus

/-- A board cell `(x, y)`. -/
abbrev Cell := Int × Int

/-- The four classic colors (`DEFAULT_COLORS` in the server; the per-color
sets in the server are literal records over exactly these four keys). -/
inductive Color where
  | blue | yellow | red | green
deriving DecidableEq, Repr

/-- The piece catalog `PIECES` from `src/server/index.js`, in source order. -/
def PIECES : List (String × List Cell) :=
  [ ("I1", [(0,0)]),
    ("I2", [(0,0),(1,0)]),
    ("I3", [(0,0),(1,0),(2,0)]),
    ("I4", [(0,0),(1,0),(2,0),(3,0)]),
    ("I5", [(0,0),(1,0),(2,0),(3,0),(4,0)]),
    ("V3", [(0,0),(0,1),(1,0)]),
    ("L4", [(0,0),(0,1),(0,2),(1,0)]),
    ("Z4", [(0,0),(1,0),(1,1),(2,1)]),
    ("O4", [(0,0),(1,0),(0,1),(1,1)]),
    ("T5", [(0,0),(1,0),(2,0),(1,1),(1,2)]),
    ("L5", [(0,0),(0,1),(0,2),(0,3),(1,0)]),
    ("Y5", [(0,0),(1,0),(2,0),(3,0),(1,1)]),
    ("N5", [(0,0),(1,0),(1,1),(2,1),(3,1)]),
    ("Z5", [(0,0),(1,0),(2,0),(2,1),(3,1)]),
    ("U5", [(0,0),(2,0),(0,1),(1,1),(2,1)]),
    ("V5", [(0,0),(0,1),(0,2),(1,0),(2,0)]),
    ("W5", [(0,0),(1,0),(1,1),(2,1),(2,2)]),
    ("X5", [(1,0),(0,1),(1,1),(2,1),(1,2)]),
    ("P5", [(0,0),(1,0),(0,1),(1,1),(0,2)]),
    ("F5", [(1,0),(0,1),(1,1),(1,2),(2,2)]),
    ("T4", [(0,0),(1,0),(2,0),(1,1)]) ]

/-- `START_CORNERS` from the server: fixed literal corners (board size 20). -/
def START_CORNERS : Color → Cell
  | .blue => (0, 0)
  | .yellow => (19, 0)
  | .red => (0, 19)
  | .green => (19, 19)

/-- One 90° clockwise rotation step `(x,y) ↦ (y,-x)`. -/
def rotateCW (p : Cell) : Cell := (p.2, -p.1)

/-- `rotate(point, times)`: JavaScript computes
`times = ((times % 4) + 4) % 4` with truncated `%` and then applies the
clockwise step that many times. -/
def rotate (p : Cell) (times : Int) : Cell :=
  rotateCW^[(((times.tmod 4) + 4).tmod 4).toNat] p

/-- `flip(point)`: mirror `(x,y) ↦ (-x,y)`. -/
def flip (p : Cell) : Cell := (-p.1, p.2)

/-- Minimum x-coordinate of a nonempty cell list (`Math.min(...xs)`). -/
def minXs : List Cell → Int
  | [] => 0
  | c :: cs => (cs.map Prod.fst).foldl min c.1

/-- Minimum y-coordinate of a nonempty cell list. -/
def minYs : List Cell → Int
  | [] => 0
  | c :: cs => (cs.map Prod.snd).foldl min c.2

/-- `normalize(cells)`: subtract the minimum x and minimum y. -/
def normalize (cells : List Cell) : List Cell :=
  cells.map (fun p => (p.1 - minXs cells, p.2 - minYs cells))

/-- `transformShape(shape, rotationTimes, flipped)`: flip first (when
requested), then rotate every point, then normalize. -/
def transformShape (shape : List Cell) (rotationTimes : Int) (flipped : Bool) : List Cell :=
  let cells := if flipped then shape.map flip else shape
  normalize (cells.map (fun p => rotate p rotationTimes))

/-- `translate(cells, dx, dy)`. -/
def translate (cells : List Cell) (dx dy : Int) : List Cell :=
  cells.map (fun p => (p.1 + dx, p.2 + dy))

/-- A persisted move row: either a pass or a placement with its resolved
absolute cells (the server stores the translated cells, not the anchor). -/
inductive Move where
  | pass (color : Color)
  | place (color : Color) (pieceKey : String) (rotation : Int) (flipped : Bool)
      (cells : List Cell)
deriving DecidableEq, Repr

def Move.color : Move → Color
  | .pass c => c
  | .place c _ _ _ _ => c

def Move.isPass : Move → Bool
  | .pass _ => true
  | .place _ _ _ _ _ => false

/-- The absolute cells a move contributes to the board (none for a pass). -/
def Move.placedCells : Move → List Cell
  | .pass _ => []
  | .place _ _ _ _ cs => cs

/-- All occupied cells, from every color's non-pass moves, in log order
(the key set of the `occupied` map built in the handlers). -/
def occupiedCells (moves : List Move) : List Cell :=
  moves.flatMap Move.placedCells

/-- `playerSets[color]` / `playerCells[color]`: the cells of one color's
non-pass moves. -/
def playerCells (moves : List Move) (c : Color) : List Cell :=
  (moves.filter (fun m => !m.isPass && decide (m.color = c))).flatMap Move.placedCells

/-- `usedPieces[color]`: piece keys of one color's non-pass moves. -/
def usedPieces (moves : List Move) (c : Color) : List String :=
  (moves.filter (fun m => !m.isPass && decide (m.color = c))).filterMap
    (fun m => match m with
      | .pass _ => none
      | .place _ k _ _ _ => some k)

/-- `isWithinBoard(cells, size)`. -/
def isWithinBoard (cells : List Cell) (size : Int) : Bool :=
  cells.all (fun p => decide (0 ≤ p.1) && decide (0 ≤ p.2) &&
    decide (p.1 < size) && decide (p.2 < size))

/-- `hasCornerContact(cells, playerSet)`: some cell touches a same-color
cell diagonally. -/
def hasCornerContact (cells playerSet : List Cell) : Bool :=
  cells.any (fun p =>
    [(p.1 - 1, p.2 - 1), (p.1 - 1, p.2 + 1), (p.1 + 1, p.2 - 1), (p.1 + 1, p.2 + 1)].any
      (fun q => decide (q ∈ playerSet)))

/-- `hasEdgeContact(cells, playerSet)`: some cell touches a same-color
cell 4-directionally. -/
def hasEdgeContact (cells playerSet : List Cell) : Bool :=
  cells.any (fun p =>
    [(p.1 - 1, p.2), (p.1 + 1, p.2), (p.1, p.2 - 1), (p.1, p.2 + 1)].any
      (fun q => decide (q ∈ playerSet)))

/-- The per-game persistent state the handlers read and write: the ordered
player list (by `order_index`), the stored `next_player_index`, the board
size, and the move log in `turn_number` order. -/
structure GameState where
  players : List Color
  nextPlayerIndex : Nat
  boardSize : Int
  moves : List Move
deriving DecidableEq, Repr

/-- The body of a `POST /api/games/:id/place` request: color, piece key,
rotation, flip, and the anchor `position`. -/
structure PlaceRequest where
  player_color : Color
  piece_key : String
  rotation : Int
  flipped : Bool
  posX : Int
  posY : Int
deriving DecidableEq, Repr

/-- The place handler's decision, checks in source order: unknown piece,
turn ownership, bounds, overlap against all colors, then the
first-move-corner rule (first move) or diagonal-contact rule (later
moves), and finally the same-color edge prohibition.  On success it
returns the absolute cells that get persisted.  (`failed_to_place` stands
for the 500 the JavaScript would raise indexing a missing player.) -/
def placeResult (s : GameState) (req : PlaceRequest) : Except String (List Cell) :=
  match PIECES.lookup req.piece_key with
  | none => .error "invalid_piece"
  | some shape =>
    match s.players[s.nextPlayerIndex]? with
    | none => .error "failed_to_place"
    | some current =>
      if current ≠ req.player_color then .error "not_your_turn"
      else
        let placed := translate (transformShape shape req.rotation req.flipped) req.posX req.posY
        if !isWithinBoard placed s.boardSize then .error "out_of_bounds"
        else if placed.any (fun c => decide (c ∈ occupiedCells s.moves)) then .error "overlap"
        else
          let mySet := playerCells s.moves req.player_color
          let isFirstMove := !s.moves.any (fun m => decide (m.color = req.player_color) && !m.isPass)
          if isFirstMove && !placed.any (fun c => decide (c = START_CORNERS req.player_color)) then
            .error "first_move_must_cover_corner"
          else if !isFirstMove && !hasCornerContact placed mySet then
            .error "must_touch_same_color_corner"
          else if hasEdgeContact placed mySet then
            .error "cannot_touch_same_color_edge"
          else .ok placed

/-- Appending an accepted placement: the move row is inserted and
`next_player_index` is advanced `(+1) mod playerCount`. -/
def applyPlace (s : GameState) (req : PlaceRequest) (placed : List Cell) : GameState :=
  { s with
    moves := s.moves ++ [.place req.player_color req.piece_key req.rotation req.flipped placed]
    nextPlayerIndex := (s.nextPlayerIndex + 1) % s.players.length }

/-- The skip handler's decision: only turn ownership is checked.  Nothing
about the game's status enters the decision. -/
def skipResult (s : GameState) (color : Color) : Except String Unit :=
  match s.players[s.nextPlayerIndex]? with
  | none => .error "failed_to_skip"
  | some current =>
    if current ≠ color then .error "not_your_turn" else .ok ()

/-- Appending an accepted pass: a pass row is inserted and
`next_player_index` is advanced exactly like for a placement. -/
def applySkip (s : GameState) (color : Color) : GameState :=
  { s with
    moves := s.moves ++ [.pass color]
    nextPlayerIndex := (s.nextPlayerIndex + 1) % s.players.length }

inductive Status where
  | active | finished
deriving DecidableEq, Repr

/-- JavaScript `moves.slice(-n)`: the last `n` elements, except that
`slice(-0)` is `slice(0)`, the whole array. -/
def sliceLast (moves : List Move) (n : Nat) : List Move :=
  if n = 0 then moves else moves.drop (moves.length - n)

/-- The projected status from `getGameState`: `finished` exactly when the
trailing `playerCount`-slice consists of `playerCount` passes; otherwise
the stored status, which is always `'active'` (no handler ever updates
the `status` column). -/
def projStatus (moves : List Move) (playerCount : Nat) : Status :=
  if (sliceLast moves playerCount).length = playerCount ∧
      (sliceLast moves playerCount).all Move.isPass then .finished else .active

def pieceKeys : List String := PIECES.map Prod.fst

/-- `sizeOf` in the scoring loop: the catalog cell count of a key. -/
def pieceSize (k : String) : Nat := ((PIECES.lookup k).getD []).length

/-- One color's score, as computed by `getGameState` once finished:
minus the unused squares, `+15` when no piece remains, and `+5` when in
addition `'I1'` is among the used pieces. -/
def scoreFor (moves : List Move) (c : Color) : Int :=
  let used := usedPieces moves c
  let remPieces := pieceKeys.filter (fun k => !used.contains k)
  let remSquares : Nat := (remPieces.map pieceSize).sum
  let score1 : Int := -(remSquares : Int)
  let score2 : Int := if remPieces.length = 0 then score1 + 15 else score1
  if used.contains "I1" ∧ remPieces.length = 0 then score2 + 5 else score2

/-- The states reachable through the API: a fresh game (nonempty player
list, board size 20, empty log, turn pointer 0) extended by handler-
accepted placements and passes only. -/
inductive Reach : GameState → Prop where
  | init (players : List Color) (hne : players ≠ []) :
      Reach { players := players, nextPlayerIndex := 0, boardSize := 20, moves := [] }
  | place {s : GameState} {req : PlaceRequest} {placed : List Cell} :
      Reach s → placeResult s req = .ok placed → Reach (applyPlace s req placed)
  | skip {s : GameState} {color : Color} :
      Reach s → skipResult s color = .ok () → Reach (applySkip s color)

/-- `cornerFor` from `src/client/src/App.jsx` with `BOARD_SIZE = 20`:
note red and green differ from the server's `START_CORNERS`. -/
def cornerFor : Color → Cell
  | .blue => (0, 0)
  | .yellow => (19, 0)
  | .red => (19, 19)
  | .green => (0, 19)

/-! Concrete states used to exercise the definitions. -/

/-- A fresh single-player game (game creation accepts any nonempty
caller-supplied color list). -/
def oneBlue : GameState :=
  { players := [Color.blue], nextPlayerIndex := 0, boardSize := 20, moves := [] }

/-- Blue's opening monomino on the starting corner. -/
def blueOpening : PlaceRequest :=
  { player_color := Color.blue, piece_key := "I1", rotation := 0, flipped := false
    posX := 0, posY := 0 }

/-- The single-player game after the accepted opening: blue occupies `(0,0)`. -/
def oneBlueAfter : GameState := applyPlace oneBlue blueOpening [(0, 0)]

/-- Blue's monomino proposed at `(0,1)`: edge-adjacent to blue's `(0,0)`
but not diagonally adjacent to any blue cell. -/
def blueEdgeReq : PlaceRequest :=
  { player_color := Color.blue, piece_key := "I1", rotation := 0, flipped := false
    posX := 0, posY := 1 }

/-- A four-player game in which everyone has just passed: the projected
status is `finished`. -/
def fourAllPassed : GameState :=
  { players := [Color.blue, Color.yellow, Color.red, Color.green]
    nextPlayerIndex := 0
    boardSize := 20
    moves := [Move.pass Color.blue, Move.pass Color.yellow,
              Move.pass Color.red, Move.pass Color.green] }

/-- A move log in which blue places all 21 catalog pieces in catalog order
(so the last placement is `T4`, not `I1`) and then passes. -/
def bluePlayedAll : List Move :=
  PIECES.map (fun kv => Move.place Color.blue kv.1 0 false kv.2) ++ [Move.pass Color.blue]

/-! ## C2 — order of the edge-adjacency and corner checks -/

/-- C2, counterexample.  In the single-player game where blue occupies
`(0,0)`, blue's monomino at `(0,1)` is a non-first placement that is
4-directionally adjacent to a same-color cell and not diagonally adjacent
to any; the claim says it is rejected with `cannot_touch_same_color_edge`,
but the handler tests the corner rule first and rejects it with
`must_touch_same_color_corner`. -/
theorem C2_counterexample :
    hasEdgeContact (translate (transformShape [((0:Int), (0:Int))] 0 false) 0 1)
      (playerCells oneBlueAfter.moves Color.blue) = true ∧
    hasCornerContact (translate (transformShape [((0:Int), (0:Int))] 0 false) 0 1)
      (playerCells oneBlueAfter.moves Color.blue) = false ∧
    oneBlueAfter.moves.any
      (fun m => decide (m.color = Color.blue) && !m.isPass) = true ∧
    placeResult oneBlueAfter blueEdgeReq = Except.error "must_touch_same_color_corner" ∧
    "must_touch_same_color_corner" ≠ "cannot_touch_same_color_edge" := by
  refine ⟨by decide, by decide, by decide, rfl, by decide⟩

/-! ## C7 — scoring bonus for finishing with the monomino -/

/-- C7: the `+5` bonus is granted whenever `'I1'` is among the used pieces
and nothing remains — the scorer never looks at which piece was placed
last.  In `bluePlayedAll` blue used all 21 pieces and its last placement
is `T4`, yet the score is `20`, where the claim (and the code's own
comment `+5 if last piece I1`) demands `15`. -/
theorem C7_all_used_scores_20 :
    projStatus bluePlayedAll 1 = Status.finished ∧
    (usedPieces bluePlayedAll Color.blue).getLast? = some "T4" ∧
    "I1" ≠ "T4" ∧
    scoreFor bluePlayedAll Color.blue = 20 := by
  refine ⟨by decide, by decide, by decide, by decide⟩

/-! ## C9 — the piece catalog -/

/-- C9, counterexample: the `X5` piece is in the catalog and its cell set
does not contain `(0,0)` (its normalized bounding box starts at `(0,0)`,
but no cell sits there). -/
theorem C9_counterexample :
    PIECES.lookup "X5" = some [(1,0),(0,1),(1,1),(2,1),(1,2)] ∧
    ((0:Int), (0:Int)) ∉ [((1:Int),(0:Int)),(0,1),(1,1),(2,1),(1,2)] := by
  refine ⟨by decide, by decide⟩

/-- C9, amended: the catalog has exactly 21 read-only entries, each of
size 1–5 with every size attained (five size-4 entries, `T4` being the
extra one), and every entry is normalized — all coordinates non-negative
with minimum x and minimum y equal to 0 (bounding-box corner `(0,0)`) —
but an entry need not contain the cell `(0,0)` itself. -/
theorem C9_catalog :
    PIECES.length = 21 ∧
    PIECES.all (fun p => decide (1 ≤ p.2.length) && decide (p.2.length ≤ 5)) = true ∧
    PIECES.all (fun p => p.2.all (fun c => decide (0 ≤ c.1) && decide (0 ≤ c.2))) = true ∧
    PIECES.all (fun p => decide (minXs p.2 = 0) && decide (minYs p.2 = 0)) = true ∧
    [1, 2, 3, 4, 5].all (fun n => PIECES.any (fun p => decide (p.2.length = n))) = true ∧
    (PIECES.filter (fun p => decide (p.2.length = 4))).length = 5 := by
  refine ⟨by decide, by decide, by decide, by decide, by decide, by decide⟩

/-! ## C10 — client vs server starting corners -/

/-- C10: the client's `cornerFor` agrees with the server's `START_CORNERS`
for blue and yellow but swaps red and green, so the client's first-move
preview disagrees with the server's first-move corner check for those two
colors. -/
theorem C10_corner_mismatch :
    cornerFor Color.blue = START_CORNERS Color.blue ∧
    cornerFor Color.yellow = START_CORNERS Color.yellow ∧
    cornerFor Color.red = (19, 19) ∧ START_CORNERS Color.red = (0, 19) ∧
    cornerFor Color.green = (0, 19) ∧ START_CORNERS Color.green = (19, 19) ∧
    cornerFor Color.red ≠ START_CORNERS Color.red ∧
    cornerFor Color.green ≠ START_CORNERS Color.green := by
  refine ⟨rfl, rfl, rfl, rfl, rfl, rfl, by decide, by decide⟩

/-! ## C5 — turn advancement -/

/-- C5: after every accepted move — placement or pass — the stored
`next_player_index` becomes `(previous + 1) % playerCount`; with four
players this sends index 0 to 1 and wraps index 3 to 0. -/
theorem C5_turn_advance (s : GameState) (req : PlaceRequest) (placed : List Cell)
    (c : Color) :
    (placeResult s req = Except.ok placed →
      (applyPlace s req placed).nextPlayerIndex = (s.nextPlayerIndex + 1) % s.players.length) ∧
    (skipResult s c = Except.ok () →
      (applySkip s c).nextPlayerIndex = (s.nextPlayerIndex + 1) % s.players.length) ∧
    (s.players.length = 4 ∧ s.nextPlayerIndex = 0 →
      (applyPlace s req placed).nextPlayerIndex = 1 ∧
      (applySkip s c).nextPlayerIndex = 1) ∧
    (s.players.length = 4 ∧ s.nextPlayerIndex = 3 →
      (applyPlace s req placed).nextPlayerIndex = 0 ∧
      (applySkip s c).nextPlayerIndex = 0) := by
  refine ⟨fun _ => rfl, fun _ => rfl, fun h => ?_, fun h => ?_⟩ <;>
    simp [applyPlace, applySkip, h.1, h.2]

/-- C5, witness: in the four-player game `fourAllPassed` (turn pointer 0),
an accepted pass by blue moves the pointer to 1; so does blue's accepted
monomino placement at the starting corner. -/
theorem C5_witness :
    (applySkip fourAllPassed Color.blue).nextPlayerIndex = 1 ∧
    (applyPlace fourAllPassed blueOpening [(0, 0)]).nextPlayerIndex = 1 := by
  refine ⟨(C5_turn_advance fourAllPassed blueOpening [(0, 0)] Color.blue).2.1 rfl, ?_⟩
  exact (C5_turn_advance fourAllPassed blueOpening [(0, 0)] Color.blue).1 rfl

/-! ## C6 — end-of-game detection -/

/-- C6: for a positive player count, the projected status is `finished`
exactly when the log holds at least `playerCount` moves and the most
recent `playerCount` of them are all passes; appending `playerCount`
passes to any earlier history finishes the game, and in every other case
the status stays `active`. -/
theorem C6_end_detection (moves : List Move) (n : Nat) (hn : 0 < n) :
    (projStatus moves n = Status.finished ↔
      n ≤ moves.length ∧ ∀ m ∈ moves.drop (moves.length - n), m.isPass = true) ∧
    (∀ pre tail : List Move, tail.length = n → (∀ m ∈ tail, m.isPass = true) →
      projStatus (pre ++ tail) n = Status.finished) := by
  have hn' : ¬ n = 0 := by omega
  have hslice : ∀ l : List Move, sliceLast l n = l.drop (l.length - n) := by
    intro l
    unfold sliceLast
    rw [if_neg hn']
  constructor
  · unfold projStatus
    rw [hslice]
    have hL : (moves.drop (moves.length - n)).length = moves.length - (moves.length - n) :=
      List.length_drop _ _
    constructor
    · intro h
      split at h
      · rename_i hcond
        refine ⟨by omega, fun m hm => ?_⟩
        exact List.all_eq_true.mp hcond.2 m hm
      · exact absurd h (by simp)
    · rintro ⟨hle, hall⟩
      rw [if_pos ⟨by omega, List.all_eq_true.mpr hall⟩]
  · intro pre tail hlen hall
    have hdrop : (pre ++ tail).drop ((pre ++ tail).length - n) = tail := by
      have h1 : (pre ++ tail).length - n = pre.length := by
        simp [List.length_append, hlen]
      rw [h1, List.drop_left]
    unfold projStatus
    rw [hslice, hdrop, if_pos ⟨hlen, List.all_eq_true.mpr hall⟩]

/-- C6, witness: with four players, a log of one placement followed by
four passes is finished, and the same log without the last pass is not
(`projStatus` returns `active` there by the iff). -/
theorem C6_witness :
    projStatus (Move.place Color.blue "I1" 0 false [(0, 0)] :: fourAllPassed.moves) 4
      = Status.finished := by
  have h := (C6_end_detection
    (Move.place Color.blue "I1" 0 false [(0, 0)] :: fourAllPassed.moves) 4 (by decide)).1
  exact h.mpr (by decide)

/-! ## C8 — behavior after `finished` -/

/-- The all-passed four-player game is reachable through the handlers. -/
theorem reach_fourAllPassed : Reach fourAllPassed := by
  have h0 := Reach.init [Color.blue, Color.yellow, Color.red, Color.green] (by decide)
  have h1 := @Reach.skip _ Color.blue h0 rfl
  have h2 := @Reach.skip _ Color.yellow h1 rfl
  have h3 := @Reach.skip _ Color.red h2 rfl
  have h4 := @Reach.skip _ Color.green h3 rfl
  have heq : applySkip (applySkip (applySkip (applySkip
      { players := [Color.blue, Color.yellow, Color.red, Color.green]
        nextPlayerIndex := 0, boardSize := 20, moves := [] }
      Color.blue) Color.yellow) Color.red) Color.green = fourAllPassed := by decide
  exact heq ▸ h4

/-- C8, counterexample: `fourAllPassed` is reachable and finished, yet the
skip handler accepts a further pass by blue (the player at the turn
pointer) and appends it, so a log whose proper prefix is finished is
reachable. -/
theorem C8_counterexample :
    projStatus fourAllPassed.moves fourAllPassed.players.length = Status.finished ∧
    skipResult fourAllPassed Color.blue = Except.ok () ∧
    Reach (applySkip fourAllPassed Color.blue) ∧
    (applySkip fourAllPassed Color.blue).moves
      = fourAllPassed.moves ++ [Move.pass Color.blue] := by
  refine ⟨by decide, rfl, ?_, rfl⟩
  exact @Reach.skip _ Color.blue reach_fourAllPassed rfl

/-- C8, amended: `finished` is not terminal — the handlers never consult
the projected status, so a pass by the player at the current turn pointer
is accepted and appended even when the most recent `playerCount` moves
are all passes. -/
theorem C8_not_terminal (s : GameState) (c : Color)
    (_hfin : projStatus s.moves s.players.length = Status.finished)
    (hcur : s.players[s.nextPlayerIndex]? = some c) :
    skipResult s c = Except.ok () ∧
    (applySkip s c).moves = s.moves ++ [Move.pass c] := by
  refine ⟨?_, rfl⟩
  simp [skipResult, hcur]

/-- C8, amended witness: the finished four-player game still accepts
blue's pass. -/
theorem C8_witness :
    skipResult fourAllPassed Color.blue = Except.ok () ∧
    (applySkip fourAllPassed Color.blue).moves
      = fourAllPassed.moves ++ [Move.pass Color.blue] :=
  C8_not_terminal fourAllPassed Color.blue (by decide) rfl

/-! ## C3 — the first-move corner rule -/

/-- A color all of whose logged moves are passes has no cells on the
board. -/
theorem playerCells_eq_nil {moves : List Move} {c : Color}
    (h : ∀ m ∈ moves, m.color = c → m.isPass = true) :
    playerCells moves c = [] := by
  unfold playerCells
  have hfil : moves.filter (fun m => !m.isPass && decide (m.color = c)) = [] := by
    rw [List.filter_eq_nil_iff]
    intro m hm
    by_cases hc : m.color = c
    · simp [h m hm hc]
    · simp [hc]
  rw [hfil]
  rfl

/-- No contact of any kind with an empty same-color set. -/
theorem hasEdgeContact_nil (cells : List Cell) : hasEdgeContact cells [] = false := by
  unfold hasEdgeContact
  simp

/-- C3: when the mover's log holds no non-pass move, a placement that
names a valid piece, is the mover's turn, stays in bounds and overlaps
nothing is accepted exactly when one of its absolute cells is the mover's
fixed starting corner — blue `(0,0)`, yellow `(19,0)`, red `(0,19)`,
green `(19,19)` — and otherwise is rejected with
`first_move_must_cover_corner`. -/
theorem C3_first_move_corner (s : GameState) (req : PlaceRequest) (shape : List Cell)
    (hpiece : PIECES.lookup req.piece_key = some shape)
    (hcur : s.players[s.nextPlayerIndex]? = some req.player_color)
    (hfirst : ∀ m ∈ s.moves, m.color = req.player_color → m.isPass = true)
    (hbounds : isWithinBoard
      (translate (transformShape shape req.rotation req.flipped) req.posX req.posY)
      s.boardSize = true)
    (hoverlap : ∀ c ∈ translate (transformShape shape req.rotation req.flipped) req.posX req.posY,
      c ∉ occupiedCells s.moves) :
    (START_CORNERS Color.blue = (0, 0) ∧ START_CORNERS Color.yellow = (19, 0) ∧
      START_CORNERS Color.red = (0, 19) ∧ START_CORNERS Color.green = (19, 19)) ∧
    placeResult s req =
      (if START_CORNERS req.player_color ∈
          translate (transformShape shape req.rotation req.flipped) req.posX req.posY
        then Except.ok (translate (transformShape shape req.rotation req.flipped) req.posX req.posY)
        else Except.error "first_move_must_cover_corner") := by
  refine ⟨⟨rfl, rfl, rfl, rfl⟩, ?_⟩
  have hfm : s.moves.any (fun m => decide (m.color = req.player_color) && !m.isPass) = false := by
    rw [List.any_eq_false]
    intro m hm
    by_cases hc : m.color = req.player_color
    · simp [hfirst m hm hc]
    · simp [hc]
  have hover : (translate (transformShape shape req.rotation req.flipped) req.posX req.posY).any
      (fun c => decide (c ∈ occupiedCells s.moves)) = false := by
    rw [List.any_eq_false]
    intro c hc
    simpa using hoverlap c hc
  have hmySet := playerCells_eq_nil hfirst
  simp only [placeResult, hpiece, hcur, ne_eq, not_true_eq_false, if_false, Bool.not_true,
    hbounds, Bool.not_eq_true', hover, hfm, Bool.not_false, Bool.true_and, Bool.false_and,
    hmySet, hasEdgeContact_nil, if_true, ite_false, ite_true, reduceCtorEq]
  by_cases hmem : START_CORNERS req.player_color ∈
      translate (transformShape shape req.rotation req.flipped) req.posX req.posY
  · have hany : (translate (transformShape shape req.rotation req.flipped) req.posX req.posY).any
        (fun c => decide (c = START_CORNERS req.player_color)) = true := by
      rw [List.any_eq_true]
      exact ⟨_, hmem, by simp⟩
    simp [hany, hmem]
  · have hany : (translate (transformShape shape req.rotation req.flipped) req.posX req.posY).any
        (fun c => decide (c = START_CORNERS req.player_color)) = false := by
      rw [List.any_eq_false]
      intro c hc
      simp only [decide_eq_true_eq]
      intro heq
      exact hmem (heq ▸ hc)
    simp [hany, hmem]

/-- C3, witness: in a fresh single-player game, blue's monomino at `(0,0)`
is accepted, and the corner table is as stated. -/
theorem C3_witness :
    START_CORNERS Color.blue = (0, 0) ∧
    placeResult oneBlue blueOpening = Except.ok [(0, 0)] := by
  have h := C3_first_move_corner oneBlue blueOpening [(0, 0)] rfl rfl
    (by intro m hm; simp [oneBlue] at hm) (by decide) (by decide)
  refine ⟨h.1.1, ?_⟩
  have h2 := h.2
  rw [if_pos (by decide)] at h2
  simpa using h2

/-- C2, amended: the handler evaluates the corner/first-move rule before
the edge-adjacency prohibition.  For a non-first placement that passes
the piece, turn, bounds and overlap checks: if it touches no same-color
cell diagonally it is rejected with `must_touch_same_color_corner` (even
when it is edge-adjacent); only when it does touch diagonally is the edge
prohibition consulted, rejecting with `cannot_touch_same_color_edge`. -/
theorem C2_corner_before_edge (s : GameState) (req : PlaceRequest) (shape : List Cell)
    (hpiece : PIECES.lookup req.piece_key = some shape)
    (hcur : s.players[s.nextPlayerIndex]? = some req.player_color)
    (hnotfirst : s.moves.any (fun m => decide (m.color = req.player_color) && !m.isPass) = true)
    (hbounds : isWithinBoard
      (translate (transformShape shape req.rotation req.flipped) req.posX req.posY)
      s.boardSize = true)
    (hoverlap : (translate (transformShape shape req.rotation req.flipped) req.posX req.posY).any
      (fun c => decide (c ∈ occupiedCells s.moves)) = false) :
    placeResult s req =
      (if hasCornerContact
          (translate (transformShape shape req.rotation req.flipped) req.posX req.posY)
          (playerCells s.moves req.player_color) = false
        then Except.error "must_touch_same_color_corner"
        else if hasEdgeContact
          (translate (transformShape shape req.rotation req.flipped) req.posX req.posY)
          (playerCells s.moves req.player_color) = true
        then Except.error "cannot_touch_same_color_edge"
        else Except.ok
          (translate (transformShape shape req.rotation req.flipped) req.posX req.posY)) := by
  simp only [placeResult, hpiece, hcur, ne_eq, not_true_eq_false, if_false, Bool.not_true,
    hbounds, Bool.not_eq_true', hoverlap, hnotfirst, Bool.not_false, Bool.true_and,
    Bool.false_and, if_true, ite_false, ite_true, reduceCtorEq]

/-- C2, amended witness: with blue on `(0,0)`, blue's monomino at `(0,1)`
(edge-adjacent, no diagonal contact) draws `must_touch_same_color_corner`. -/
theorem C2_witness :
    placeResult oneBlueAfter blueEdgeReq = Except.error "must_touch_same_color_corner" := by
  have h := C2_corner_before_edge oneBlueAfter blueEdgeReq [(0, 0)] rfl rfl
    (by decide) (by decide) (by decide)
  rw [h, if_pos (by decide)]

/-! ## C4 — shape transformation -/

theorem foldl_min_le_init (l : List Int) (a : Int) : l.foldl min a ≤ a := by
  induction l generalizing a with
  | nil => simp
  | cons x xs ih =>
    simp only [List.foldl_cons]
    exact le_trans (ih (min a x)) (min_le_left a x)

theorem foldl_min_le_mem (l : List Int) (a : Int) : ∀ b ∈ l, l.foldl min a ≤ b := by
  induction l generalizing a with
  | nil => intro b hb; cases hb
  | cons x xs ih =>
    intro b hb
    rcases List.mem_cons.mp hb with h | h
    · subst h
      simp only [List.foldl_cons]
      exact le_trans (foldl_min_le_init xs (min a b)) (min_le_right a b)
    · exact ih (min a x) b h

theorem foldl_min_mem (l : List Int) (a : Int) : l.foldl min a = a ∨ l.foldl min a ∈ l := by
  induction l generalizing a with
  | nil => left; rfl
  | cons x xs ih =>
    simp only [List.foldl_cons]
    rcases ih (min a x) with h | h
    · rcases le_total a x with hax | hxa
      · left
        rw [h, min_eq_left hax]
      · right
        rw [h, min_eq_right hxa]
        exact List.mem_cons_self x xs
    · right
      exact List.mem_cons_of_mem x h

/-- `minXs` bounds every x-coordinate from below. -/
theorem minXs_le {cells : List Cell} {c : Cell} (hc : c ∈ cells) : minXs cells ≤ c.1 := by
  cases cells with
  | nil => cases hc
  | cons d ds =>
    unfold minXs
    rcases List.mem_cons.mp hc with h | h
    · subst h
      exact foldl_min_le_init _ _
    · exact foldl_min_le_mem _ _ _ (List.mem_map_of_mem Prod.fst h)

/-- `minXs` of a nonempty list is attained by some cell. -/
theorem minXs_is_mem {cells : List Cell} (h : cells ≠ []) :
    ∃ c ∈ cells, c.1 = minXs cells := by
  cases cells with
  | nil => exact absurd rfl h
  | cons d ds =>
    unfold minXs
    rcases foldl_min_mem (ds.map Prod.fst) d.1 with heq | hmem
    · exact ⟨d, List.mem_cons_self d ds, heq.symm⟩
    · obtain ⟨c, hc, hcx⟩ := List.mem_map.mp hmem
      exact ⟨c, List.mem_cons_of_mem d hc, hcx⟩

theorem minYs_le {cells : List Cell} {c : Cell} (hc : c ∈ cells) : minYs cells ≤ c.2 := by
  cases cells with
  | nil => cases hc
  | cons d ds =>
    unfold minYs
    rcases List.mem_cons.mp hc with h | h
    · subst h
      exact foldl_min_le_init _ _
    · exact foldl_min_le_mem _ _ _ (List.mem_map_of_mem Prod.snd h)

theorem minYs_is_mem {cells : List Cell} (h : cells ≠ []) :
    ∃ c ∈ cells, c.2 = minYs cells := by
  cases cells with
  | nil => exact absurd rfl h
  | cons d ds =>
    unfold minYs
    rcases foldl_min_mem (ds.map Prod.snd) d.2 with heq | hmem
    · exact ⟨d, List.mem_cons_self d ds, heq.symm⟩
    · obtain ⟨c, hc, hcy⟩ := List.mem_map.mp hmem
      exact ⟨c, List.mem_cons_of_mem d hc, hcy⟩

/-- Every cell of a normalized list has non-negative coordinates. -/
theorem normalize_nonneg {cells : List Cell} {c : Cell} (hc : c ∈ normalize cells) :
    0 ≤ c.1 ∧ 0 ≤ c.2 := by
  obtain ⟨p, hp, rfl⟩ := List.mem_map.mp hc
  exact ⟨sub_nonneg.mpr (minXs_le hp), sub_nonneg.mpr (minYs_le hp)⟩

/-- A normalized nonempty list touches both the line `x = 0` and the line
`y = 0`: its bounding box has minimum corner `(0,0)`. -/
theorem normalize_hits_zero {cells : List Cell} (h : cells ≠ []) :
    (∃ c ∈ normalize cells, c.1 = 0) ∧ (∃ c ∈ normalize cells, c.2 = 0) := by
  obtain ⟨cx, hcx, hx⟩ := minXs_is_mem h
  obtain ⟨cy, hcy, hy⟩ := minYs_is_mem h
  constructor
  · exact ⟨_, List.mem_map_of_mem _ hcx, by simp [hx]⟩
  · exact ⟨_, List.mem_map_of_mem _ hcy, by simp [hy]⟩

/-- The truncated remainder by 4 lies strictly between `-4` and `4`. -/
theorem tmod_four_bounds (r : Int) : -4 < r.tmod 4 ∧ r.tmod 4 < 4 := by
  cases r with
  | ofNat m =>
    have e : Int.tmod (Int.ofNat m) 4 = ((m % 4 : Nat) : Int) := rfl
    have hm : m % 4 < 4 := Nat.mod_lt m (by norm_num)
    rw [e]
    omega
  | negSucc m =>
    have e : Int.tmod (Int.negSucc m) 4 = -(((m + 1) % 4 : Nat) : Int) := rfl
    have hm : (m + 1) % 4 < 4 := Nat.mod_lt (m + 1) (by norm_num)
    rw [e]
    omega

/-- JavaScript's `((r % 4) + 4) % 4` (truncated `%`) agrees with the
mathematical residue `r mod 4` for every sign of `r`. -/
theorem jsmod_eq_emod (r : Int) : ((r.tmod 4) + 4).tmod 4 = r % 4 := by
  have hb := tmod_four_bounds r
  have h1 : r.tmod 4 + 4 * (r.tdiv 4) = r := Int.tmod_add_tdiv r 4
  have h2 : 0 ≤ r.tmod 4 + 4 := by omega
  have h3 : (r.tmod 4 + 4).tmod 4 = (r.tmod 4 + 4) % 4 :=
    Int.tmod_eq_emod h2 (by norm_num)
  rw [h3]
  generalize ht : r.tmod 4 = t at *
  omega

/-- C4: `transformShape` mirrors first (when flipped), then rotates every
point clockwise exactly `((r mod 4) + 4) mod 4` times (the JavaScript
double-mod, which equals the mathematical `r mod 4` for negative `r` as
well, so adding 4 to the rotation never changes the result), then
re-normalizes so that the result's bounding-box minimum corner is
`(0,0)`. -/
theorem C4_transform (shape : List Cell) (r : Int) (f : Bool) (hne : shape ≠ []) :
    transformShape shape r f =
      normalize ((if f then shape.map flip else shape).map
        (fun p => rotateCW^[(((r.tmod 4) + 4).tmod 4).toNat] p)) ∧
    ((r.tmod 4) + 4).tmod 4 = r % 4 ∧
    (∀ c ∈ transformShape shape r f, 0 ≤ c.1 ∧ 0 ≤ c.2) ∧
    (∃ c ∈ transformShape shape r f, c.1 = 0) ∧
    (∃ c ∈ transformShape shape r f, c.2 = 0) ∧
    transformShape shape (r + 4) f = transformShape shape r f := by
  have hbase : ((if f then shape.map flip else shape).map (fun p => rotate p r)) ≠ [] := by
    cases f <;> simpa using hne
  have hzero := normalize_hits_zero hbase
  refine ⟨rfl, jsmod_eq_emod r, ?_, hzero.1, hzero.2, ?_⟩
  · intro c hc
    exact normalize_nonneg hc
  · have hcount : ∀ p : Cell, rotate p (r + 4) = rotate p r := by
      intro p
      unfold rotate
      have h4 : (((r + 4).tmod 4) + 4).tmod 4 = ((r.tmod 4) + 4).tmod 4 := by
        rw [jsmod_eq_emod, jsmod_eq_emod]
        omega
      rw [h4]
    have hfun : (fun p : Cell => rotate p (r + 4)) = (fun p : Cell => rotate p r) :=
      funext hcount
    unfold transformShape
    rw [hfun]

/-- C4, witness: the F-pentomino, flipped, rotated by `-3`: every
transformed cell is non-negative, and rotating by `1 = -3 + 4` gives the
identical cell list. -/
theorem C4_witness :
    (∀ c ∈ transformShape [((1:Int), (0:Int)), (0, 1), (1, 1), (1, 2), (2, 2)] (-3) true,
      0 ≤ c.1 ∧ 0 ≤ c.2) ∧
    transformShape [((1:Int), (0:Int)), (0, 1), (1, 1), (1, 2), (2, 2)] 1 true =
      transformShape [((1:Int), (0:Int)), (0, 1), (1, 1), (1, 2), (2, 2)] (-3) true := by
  have h := C4_transform [((1:Int), (0:Int)), (0, 1), (1, 1), (1, 2), (2, 2)] (-3) true
    (by decide)
  refine ⟨h.2.2.1, ?_⟩
  have h6 := h.2.2.2.2.2
  norm_num at h6
  exact h6

/-! ## C1 — the no-overlap invariant -/

/-- A successful association-list lookup returns the value of some entry. -/
theorem lookup_mem {l : List (String × List Cell)} {k : String} {v : List Cell}
    (h : l.lookup k = some v) : ∃ p ∈ l, p.2 = v := by
  induction l with
  | nil => cases h
  | cons a as ih =>
    rw [List.lookup_cons] at h
    split at h
    · exact ⟨a, List.mem_cons_self a as, Option.some.inj h⟩
    · obtain ⟨p, hp, hv⟩ := ih h
      exact ⟨p, List.mem_cons_of_mem a hp, hv⟩

/-- Every catalog entry's cell list is duplicate-free. -/
theorem pieces_cells_nodup : ∀ p ∈ PIECES, p.2.Nodup := by decide

theorem flip_injective : Function.Injective flip := by
  intro p q h
  cases p
  cases q
  simp only [flip, Prod.mk.injEq, neg_inj] at h
  simp [h.1, h.2]

theorem rotateCW_injective : Function.Injective rotateCW := by
  intro p q h
  cases p
  cases q
  simp only [rotateCW, Prod.mk.injEq, neg_inj] at h
  simp [h.1, h.2]

theorem rotate_injective (t : Int) : Function.Injective (fun p => rotate p t) := by
  unfold rotate
  exact Function.Injective.iterate rotateCW_injective _

/-- Normalization is a translation, hence preserves duplicate-freedom. -/
theorem normalize_nodup {cells : List Cell} (h : cells.Nodup) : (normalize cells).Nodup := by
  refine h.map ?_
  intro p q hpq
  cases p
  cases q
  simp only [Prod.mk.injEq] at hpq
  have := hpq.1
  have := hpq.2
  simp only [Prod.mk.injEq]
  omega

theorem translate_nodup {cells : List Cell} (h : cells.Nodup) (dx dy : Int) :
    (translate cells dx dy).Nodup := by
  refine h.map ?_
  intro p q hpq
  cases p
  cases q
  simp only [Prod.mk.injEq] at hpq
  have := hpq.1
  have := hpq.2
  simp only [Prod.mk.injEq]
  omega

/-- The cells a placement claims are duplicate-free whenever the source
shape is: the transform pipeline is a composition of injections. -/
theorem placed_nodup {shape : List Cell} (hs : shape.Nodup) (r : Int) (f : Bool)
    (dx dy : Int) : (translate (transformShape shape r f) dx dy).Nodup := by
  have h1 : ((if f then shape.map flip else shape)).Nodup := by
    cases f
    · simpa using hs
    · simpa using hs.map flip_injective
  have h2 : (((if f then shape.map flip else shape)).map (fun p => rotate p r)).Nodup :=
    h1.map (rotate_injective r)
  exact translate_nodup (normalize_nodup h2) dx dy

theorem occupiedCells_append_one (l : List Move) (m : Move) :
    occupiedCells (l ++ [m]) = occupiedCells l ++ m.placedCells := by
  simp [occupiedCells, List.flatMap_append]

/-- What a successful `placeResult` guarantees: the stored cells are the
transformed-and-translated catalog shape, and none of them was occupied. -/
theorem placeResult_ok_facts {s : GameState} {req : PlaceRequest} {placed : List Cell}
    (h : placeResult s req = Except.ok placed) :
    (∃ shape, PIECES.lookup req.piece_key = some shape ∧
      placed = translate (transformShape shape req.rotation req.flipped) req.posX req.posY) ∧
    ∀ c ∈ placed, c ∉ occupiedCells s.moves := by
  unfold placeResult at h
  cases hlk : PIECES.lookup req.piece_key with
  | none =>
    rw [hlk] at h
    cases h
  | some shape =>
    rw [hlk] at h
    cases hcur : s.players[s.nextPlayerIndex]? with
    | none =>
      rw [hcur] at h
      cases h
    | some current =>
      rw [hcur] at h
      simp only at h
      split_ifs at h with h1 h2 h3 h4 h5 h6
      simp only [Except.ok.injEq, reduceCtorEq] at h
      subst h
      refine ⟨⟨shape, rfl, rfl⟩, fun c hc => ?_⟩
      intro hocc
      apply h3
      simp only [List.any_eq_true]
      exact ⟨c, hc, by simpa using hocc⟩

/-- A duplicate-free list holds any given cell at most once. -/
theorem countP_le_one_of_nodup {l : List Cell} (h : l.Nodup) (c : Cell) :
    l.countP (fun x => decide (x = c)) ≤ 1 := by
  induction l with
  | nil => simp
  | cons a as ih =>
    obtain ⟨ha, has⟩ := List.nodup_cons.mp h
    rw [List.countP_cons]
    by_cases hac : a = c
    · have hz : as.countP (fun x => decide (x = c)) = 0 := by
        rw [List.countP_eq_zero]
        intro b hb
        simp only [decide_eq_true_eq]
        intro hbc
        exact ha ((hbc.trans hac.symm) ▸ hb)
      simp [hz, hac]
    · have hle := ih has
      simpa [hac] using hle

/-- C1: in every reachable game, the concatenation of all cells claimed
by the logged moves is duplicate-free, so the derived occupancy maps each
cell to at most one color and no cell is claimed twice — by any color,
within a move or across moves.  The validator's `overlap` rejection is
the only mechanism enforcing this; no later repair exists. -/
theorem C1_no_overlap (s : GameState) (h : Reach s) :
    (occupiedCells s.moves).Nodup ∧
    ∀ c : Cell, (occupiedCells s.moves).countP (fun x => decide (x = c)) ≤ 1 := by
  have hn : (occupiedCells s.moves).Nodup := by
    induction h with
    | init players hne => simp [occupiedCells]
    | @place s' req placed hs hok ih =>
      obtain ⟨⟨shape, hlk, hplaced⟩, hdisj⟩ := placeResult_ok_facts hok
      have hshape : shape.Nodup := by
        obtain ⟨p, hp, hv⟩ := lookup_mem hlk
        exact hv ▸ pieces_cells_nodup p hp
      have hpn : placed.Nodup := by
        rw [hplaced]
        exact placed_nodup hshape _ _ _ _
      show (occupiedCells (s'.moves ++
        [Move.place req.player_color req.piece_key req.rotation req.flipped placed])).Nodup
      rw [occupiedCells_append_one]
      exact ih.append hpn (fun a ha hb => hdisj a hb ha)
    | @skip s' color hs hok ih =>
      show (occupiedCells (s'.moves ++ [Move.pass color])).Nodup
      rw [occupiedCells_append_one]
      simpa [Move.placedCells] using ih
  exact ⟨hn, fun c => countP_le_one_of_nodup hn c⟩

/-- Blue's second monomino, placed diagonally at `(1,1)`. -/
def blueSecond : PlaceRequest :=
  { player_color := Color.blue, piece_key := "I1", rotation := 0, flipped := false
    posX := 1, posY := 1 }

/-- The single-player game after two accepted placements. -/
def oneBlueTwoMoves : GameState := applyPlace oneBlueAfter blueSecond [(1, 1)]

/-- C1, witness: the two-placement game reached through the handlers has
duplicate-free occupancy. -/
theorem C1_witness :
    (occupiedCells oneBlueTwoMoves.moves).Nodup ∧
    (occupiedCells oneBlueTwoMoves.moves).countP (fun x => decide (x = (0, 0))) ≤ 1 := by
  have h0 := Reach.init [Color.blue] (by decide)
  have h1 := @Reach.place _ blueOpening [(0, 0)] h0 rfl
  have h2 := @Reach.place _ blueSecond [(1, 1)] h1 rfl
  have h := C1_no_overlap oneBlueTwoMoves h2
  exact ⟨h.1, h.2 (0, 0)⟩

end Blokus
